import Mathlib

/-!
# Verification of the international-payments-portal core

Shallow embedding of the credential-issuance and transaction-ledger
subsystem: the login route, the token-verification middleware, and the
payment routes (`/process`, `/history`, `/:transactionId`).

JavaScript strings are modelled as `List Char`; the in-memory `Map`
stores are modelled as insertion-ordered association lists with a
`mapSet` operation mirroring `Map.prototype.set` (replace in place, or
append at the end).  Third-party library functions used by the routes
(`validator.escape`, `validator.isEmail`, `bcrypt.compare`,
`jsonwebtoken`) are modelled explicitly where their behaviour is
documented and deterministic, and abstracted as parameters where it is
cryptographic.
-/

namespace Portal

/-- JavaScript strings, modelled as lists of characters. -/
abbrev Str := List Char

/-- The whitespace class used by JavaScript `String.prototype.trim` and
by the regex class `\s` (ECMAScript WhiteSpace ∪ LineTerminator; the
common code points). -/
def jsIsWhitespace (c : Char) : Bool :=
  c == ' ' || c == '\t' || c == '\n' || c == '\r' ||
  c == '\x0b' || c == '\x0c' ||
  c == Char.ofNat 0xA0 || c == Char.ofNat 0xFEFF ||
  c == Char.ofNat 0x2028 || c == Char.ofNat 0x2029

/-- JavaScript `String.prototype.trim`: remove leading and trailing
whitespace. -/
def jsTrim (s : Str) : Str :=
  ((s.dropWhile jsIsWhitespace).reverse.dropWhile jsIsWhitespace).reverse

/-- The per-character replacement of `validator.escape` (validator
library): `&`, `"`, `'`, `<`, `>`, `/`, `\` and the backtick are
replaced by their HTML entities; every other character is kept.
`validator.escape` chains eight `String.replace` calls; since no
replacement string contains a character replaced by a later call, the
chain is equivalent to this single character-wise map. -/
def escapeChar (c : Char) : Str :=
  if c == '&' then "&amp;".toList
  else if c == '"' then "&quot;".toList
  else if c == Char.ofNat 39 then "&#x27;".toList
  else if c == '<' then "&lt;".toList
  else if c == '>' then "&gt;".toList
  else if c == '/' then "&#x2F;".toList
  else if c == Char.ofNat 92 then "&#x5C;".toList
  else if c == Char.ofNat 96 then "&#96;".toList
  else [c]

/-- `validator.escape` (validator library). -/
def escape (s : Str) : Str := s.flatMap escapeChar

/-- `sanitizeInput` from the route modules:
`validator.escape(input.trim())`. -/
def sanitizeInput (input : Str) : Str := escape (jsTrim input)

/-- JavaScript `String.prototype.toUpperCase`, restricted to ASCII
(the inputs relevant here are ASCII). -/
def jsToUpper (s : Str) : Str := s.map Char.toUpper

/-- `[A-Z]` — an uppercase ASCII letter. -/
def isUpperLetter (c : Char) : Bool := 'A' ≤ c && c ≤ 'Z'

/-- `[A-Z0-9]` — an uppercase ASCII letter or a digit. -/
def isUpperAlnum (c : Char) : Bool := isUpperLetter c || ('0' ≤ c && c ≤ '9')

/-- `validateSwiftCode` from the payments route: the anchored regex
`/^[A-Z]{6}[A-Z0-9]{2}([A-Z0-9]{3})?$/` — six uppercase letters, two
letters-or-digits, then optionally exactly three letters-or-digits, and
nothing else.  As an anchored test on the whole string this is: length
8 or 11, the first six characters uppercase letters, the rest
letters-or-digits. -/
def validateSwiftCode (s : Str) : Bool :=
  (s.length == 8 || s.length == 11) &&
  (s.take 6).all isUpperLetter && (s.drop 6).all isUpperAlnum

/-- The SWIFT/BIC shape as the spec describes it: exactly 6 letters,
followed by 2 letters-or-digits, optionally followed by exactly 3
letters-or-digits. -/
def SwiftShape (s : Str) : Prop :=
  ∃ a b c : Str, s = a ++ b ++ c ∧
    a.length = 6 ∧ (∀ x ∈ a, isUpperLetter x = true) ∧
    b.length = 2 ∧ (∀ x ∈ b, isUpperAlnum x = true) ∧
    (c = [] ∨ (c.length = 3 ∧ ∀ x ∈ c, isUpperAlnum x = true))

/-! ## JavaScript `parseFloat` -/

/-- The result of a JavaScript numeric operation that cannot be `NaN`:
either a finite value (modelled as an exact rational; IEEE-754 rounding
of in-range values is abstracted away, which is exact for every literal
appearing in the claims) or one of the two infinities. -/
inductive JsNum where
  | finite (q : ℚ)
  | posInf
  | negInf
deriving DecidableEq

/-- JavaScript `x > 0` on a non-NaN number. -/
def JsNum.isPositive : JsNum → Bool
  | .finite q => decide (0 < q)
  | .posInf => true
  | .negInf => false

/-- `[0-9]` — an ASCII digit. -/
def isDigit (c : Char) : Bool := '0' ≤ c && c ≤ '9'

/-- Numeric value of an ASCII digit. -/
def digitVal (c : Char) : Nat := c.toNat - '0'.toNat

/-- The value of a digit string read in base 10. -/
def digitsToNat (ds : Str) : Nat :=
  ds.foldl (fun acc c => 10 * acc + digitVal c) 0

/-- The longest digit prefix of a string, and the rest. -/
def takeDigits (s : Str) : Str × Str := (s.takeWhile isDigit, s.dropWhile isDigit)

/-- The value of the longest prefix of `s` matching the unsigned
non-`Infinity` part of ECMAScript `StrDecimalLiteral`:
`Digits ['.' [Digits]] [Exponent] | '.' Digits [Exponent]`, where
`Exponent = ('e'|'E') ['+'|'-'] Digits` and an exponent marker not
followed by a digit is not consumed.  `none` when no prefix matches
(`parseFloat` yields `NaN`). -/
def parseUnsigned (s : Str) : Option ℚ :=
  let ip := (takeDigits s).1
  let r1 := (takeDigits s).2
  let fp := match r1 with
    | '.' :: rest => (takeDigits rest).1
    | _ => []
  let r2 := match r1 with
    | '.' :: rest => (takeDigits rest).2
    | _ => r1
  if ip.isEmpty && fp.isEmpty then none
  else
    let exp : ℤ := match r2 with
      | c :: rest =>
        if c == 'e' || c == 'E' then
          match rest with
          | '+' :: ds => if ((takeDigits ds).1).isEmpty then 0 else ((digitsToNat (takeDigits ds).1 : ℤ))
          | '-' :: ds => if ((takeDigits ds).1).isEmpty then 0 else -((digitsToNat (takeDigits ds).1 : ℤ))
          | ds => if ((takeDigits ds).1).isEmpty then 0 else ((digitsToNat (takeDigits ds).1 : ℤ))
        else 0
      | [] => 0
    -- the exact value (intPart.fracPart) · 10^exp, written as one
    -- integer quotient: with base = intPart·10^|frac| + fracPart and
    -- e = exp − |frac|, the value is base·10^e
    let base : ℕ := digitsToNat ip * 10 ^ fp.length + digitsToNat fp
    let e : ℤ := exp - (fp.length : ℤ)
    some (if 0 ≤ e then ((base * 10 ^ e.toNat : ℕ) : ℚ)
          else Rat.divInt (base : ℤ) ((10 ^ (-e).toNat : ℕ) : ℤ))

/-- The unsigned part of `parseFloat` after an optional sign: the
literal `Infinity`, or a decimal literal prefix. -/
def parseFloatUnsigned (s : Str) (neg : Bool) : Option JsNum :=
  if s.take 8 = "Infinity".toList then
    some (if neg then .negInf else .posInf)
  else
    match parseUnsigned s with
    | none => none
    | some q => some (.finite (if neg then -q else q))

/-- JavaScript `parseFloat`: skip leading whitespace, read an optional
sign, then the longest `StrDecimalLiteral` prefix; `none` is `NaN`. -/
def parseFloat (s : Str) : Option JsNum :=
  match s.dropWhile jsIsWhitespace with
  | '+' :: rest => parseFloatUnsigned rest false
  | '-' :: rest => parseFloatUnsigned rest true
  | t => parseFloatUnsigned t false

/-! ## `validator.isEmail` (default options, ASCII model)

The login route validates emails with `validator.isEmail(email)` under
the library's default options.  The model below follows the library's
control flow for ASCII inputs: overall length cap, split at the last
`@`, local part either a quoted string or dot-separated runs of the
atext-like character class, domain checked as an FQDN with a required
TLD.  The UTF-8 extensions of the character classes are not modelled
(all inputs of interest are ASCII). -/

/-- Split a list at every occurrence of `sep` (JavaScript
`String.prototype.split` with a one-character separator). -/
def splitOnChar (sep : Char) : Str → List Str
  | [] => [[]]
  | c :: rest =>
    if c == sep then [] :: splitOnChar sep rest
    else
      match splitOnChar sep rest with
      | [] => [[c]]
      | h :: t => (c :: h) :: t

/-- Join strings with a one-character separator (JavaScript
`Array.prototype.join`). -/
def joinSep (sep : Char) : List Str → Str
  | [] => []
  | [p] => p
  | p :: ps => p ++ sep :: joinSep sep ps

/-- The character class of the library's unquoted local-part regex
`/^[a-z\d!#\$%&'\*\+\-\/=\?\^_`{\|}~]+$/i` (ASCII part). -/
def emailUserChar (c : Char) : Bool :=
  c.isAlpha || c.isDigit ||
  ['!', '#', '$', '%', '&', '*', '+', '-', '/', '=', '?', '^', '_', '~', '|',
   Char.ofNat 39, Char.ofNat 96, Char.ofNat 123, Char.ofNat 125].contains c

/-- A plain (unescaped) character inside a quoted local part, per the
library's quoted-local-part regex character class
`[\s\x01-\x08\x0b\x0c\x0e-\x1f\x7f\x21\x23-\x5b\x5d-\x7e]`. -/
def quotedPlainChar (c : Char) : Bool :=
  jsIsWhitespace c ||
  (Char.ofNat 1 ≤ c && c ≤ Char.ofNat 8) || c == Char.ofNat 11 || c == Char.ofNat 12 ||
  (Char.ofNat 14 ≤ c && c ≤ Char.ofNat 31) || c == Char.ofNat 127 ||
  c == Char.ofNat 33 ||
  (Char.ofNat 35 ≤ c && c ≤ Char.ofNat 91) ||
  (Char.ofNat 93 ≤ c && c ≤ Char.ofNat 126)

/-- A character allowed after a backslash in a quoted local part:
`[\x01-\x09\x0b\x0c\x0d-\x7f]`. -/
def quotedEscapedChar (c : Char) : Bool :=
  (Char.ofNat 1 ≤ c && c ≤ Char.ofNat 9) || c == Char.ofNat 11 ||
  (Char.ofNat 12 ≤ c && c ≤ Char.ofNat 127)

/-- The content of a quoted local part: a sequence of plain characters
and backslash escapes. -/
def quotedUserOk : Str → Bool
  | [] => true
  | c :: rest =>
    if c == Char.ofNat 92 then
      match rest with
      | d :: rest2 => quotedEscapedChar d && quotedUserOk rest2
      | [] => false
    else quotedPlainChar c && quotedUserOk rest

/-- A character allowed in an FQDN label, per the library's
`/^[a-z_¡-￿0-9-]+$/i` (ASCII part: letters, digits, hyphen,
underscore); underscores are rejected separately afterwards under the
default options. -/
def fqdnLabelChar (c : Char) : Bool :=
  c.isAlpha || c.isDigit || c == '-' || c == '_'

/-- The library's TLD test under default options:
`/^([a-z¡-￿]{2,}|xn[a-z0-9-]{2,})$/i`, ASCII part. -/
def fqdnTldOk (tld : Str) : Bool :=
  (decide (2 ≤ tld.length) && tld.all (fun c => c.isAlpha)) ||
  ((jsToUpper (tld.take 2) == "XN".toList) && decide (2 ≤ (tld.drop 2).length) &&
    (tld.drop 2).all (fun c => c.isLower || c.isDigit || c == '-'))

/-- One FQDN label under default options: at most 63 characters,
nonempty, characters from the label class, no leading or trailing
hyphen, no underscore. -/
def fqdnLabelOk (p : Str) : Bool :=
  decide (p.length ≤ 63) && decide (0 < p.length) && p.all fqdnLabelChar &&
  !(p.head? == some '-') && !(p.getLast? == some '-') && !(p.contains '_')

/-- `validator.isFQDN` under the default options used by `isEmail`
(`require_tld` true, no underscores, no trailing dot), ASCII model. -/
def isFQDN (s : Str) : Bool :=
  let parts := splitOnChar '.' s
  let tld := (parts.getLast?).getD []
  decide (2 ≤ parts.length) && fqdnTldOk tld && !(tld.any jsIsWhitespace) &&
  !(decide (0 < tld.length) && tld.all isDigit) &&
  parts.all fqdnLabelOk

/-- The domain part of an email candidate: everything after the last
`@` (the library pops the last element of `str.split('@')`). -/
def emailDomain (s : Str) : Str := ((splitOnChar '@' s).getLast?).getD []

/-- The local part of an email candidate: everything before the last
`@`, rejoined on `@` (the library joins the remaining split parts). -/
def emailUser (s : Str) : Str := joinSep '@' (splitOnChar '@' s).dropLast

/-- The local-part check: a quoted string when it opens with `"`,
otherwise dot-separated nonempty runs of the atext-like class. -/
def localPartOk (user : Str) : Bool :=
  if user.head? == some '"' then quotedUserOk ((user.drop 1).dropLast)
  else (splitOnChar '.' user).all (fun p => decide (0 < p.length) && p.all emailUserChar)

/-- `validator.isEmail` under default options (ASCII model): length
caps, split at the last `@` into local part and domain, FQDN domain,
and a quoted or dot-separated-atext local part.  The library's chain
of early `return false`s is rendered as a conjunction. -/
def isEmail (s : Str) : Bool :=
  decide (s.length ≤ 254) &&
  decide ((emailUser s).length ≤ 64) && decide ((emailDomain s).length ≤ 254) &&
  isFQDN (emailDomain s) && localPartOk (emailUser s)

/-- `validateEmail` from the auth route: `validator.isEmail(email)`. -/
def validateEmail (email : Str) : Bool := isEmail email

/-! ## In-memory stores -/

/-- `Map.prototype.set` on an insertion-ordered association list: if
the key is present its value is replaced in place, otherwise the new
entry is appended at the end. -/
def mapSet (k : Str) (v : α) : List (Str × α) → List (Str × α)
  | [] => [(k, v)]
  | (k', v') :: rest => if k = k' then (k, v) :: rest else (k', v') :: mapSet k v rest

/-! ## Auth route (`routes/auth.js`) -/

/-- A principal record in the in-memory `users` map. -/
structure User where
  email : Str
  /-- The stored bcrypt hash (opaque). -/
  password : Str
  userType : Str
  createdAt : Nat
deriving DecidableEq

/-- The payload signed into a session token:
`jwt.sign({email, userType}, secret, {expiresIn})`.  `exp` is the
expiry instant computed from the issue time and `expiresIn`. -/
structure TokenPayload where
  email : Str
  userType : Str
  exp : Nat
deriving DecidableEq

/-- A token string as seen by `jsonwebtoken`.  The library itself is
not part of this repository; tokens are modelled abstractly as either
a payload tagged with the secret that signed it (signature
verification succeeds exactly when the verifier's secret matches) or a
structurally malformed string. -/
inductive TokenData where
  | signed (payload : TokenPayload) (secret : Str)
  | malformed
deriving DecidableEq

/-- The four exits of the login route, in source order: 400 `Invalid
email format`, 401 `Invalid credentials` (user not found), 401 the
role-naming message (user-type mismatch), 401 `Invalid credentials`
(password mismatch), and the 200 success body
`{token, user:{email, userType}}`.  The two `Invalid credentials`
exits share a constructor because they return identical bodies. -/
inductive LoginResult where
  | invalidEmailFormat (message : Str)
  | invalidCredentials (message : Str)
  | roleMismatch (message : Str)
  | loginSuccess (token : TokenData) (email : Str) (userType : Str)
deriving DecidableEq

/-- The role-naming message of the login route:
``This account is registered for ${user.userType} portal``. -/
def roleMismatchMessage (actualType : Str) : Str :=
  "This account is registered for ".toList ++ actualType ++ " portal".toList

/-- The login route.  `compare` stands for `bcrypt.compare` (an opaque
cryptographic predicate), `users` for the in-memory user map, `secret`
for `process.env.JWT_SECRET || fallback`, and `exp` for the expiry
instant `jwt.sign` embeds.  Control flow as in the source: sanitize
email and userType, validate the email, look the user up, check the
user type, verify the password, sign the token. -/
def login (compare : Str → Str → Bool) (users : List (Str × User))
    (secret : Str) (exp : Nat)
    (email0 password userType0 : Str) : LoginResult :=
  let email := sanitizeInput email0
  let userType := sanitizeInput userType0
  if !validateEmail email then
    .invalidEmailFormat "Invalid email format".toList
  else
    match List.lookup email users with
    | none => .invalidCredentials "Invalid credentials".toList
    | some user =>
      if user.userType ≠ userType then
        .roleMismatch (roleMismatchMessage user.userType)
      else if !compare password user.password then
        .invalidCredentials "Invalid credentials".toList
      else
        .loginSuccess
          (.signed { email := user.email, userType := user.userType, exp := exp } secret)
          user.email user.userType

/-! ## Token-verification middleware (`middleware/auth.js`) -/

/-- The identity the middleware attaches to the request:
`req.user = {email: decoded.email, userType: decoded.userType}`. -/
structure ReqUser where
  email : Str
  userType : Str
deriving DecidableEq

/-- The exits of `verifyToken`, in source order: 401 `No token
provided` (header absent or without the `Bearer ` prefix), 401 `Token
expired`, 401 `Invalid token`, or success attaching `req.user`. -/
inductive AuthResult where
  | missingToken (message : Str)
  | tokenExpired (message : Str)
  | invalidToken (message : Str)
  | authed (user : ReqUser)
deriving DecidableEq

/-- A bearer-style prefix test: `authHeader.startsWith('Bearer ')`. -/
def startsWithBearer (h : Str) : Bool := h.take 7 == "Bearer ".toList

/-- The `verifyToken` middleware.  `decode` stands for the ambient
encoding of token strings (what `jwt.verify` would parse out of the
carrier string); `jwt.verify` itself is modelled on `TokenData`:
signature failure or malformed payload raises `JsonWebTokenError`
(mapped to `Invalid token`), and an expired-but-authentic token raises
`TokenExpiredError` (mapped to `Token expired`).  Expiry is modelled
from the spec: `TokenExpired` iff `now > exp` (the numeric boundary
lives inside the jsonwebtoken dependency, outside this repository). -/
def verifyToken (decode : Str → TokenData) (secret : Str)
    (authHeader : Option Str) (now : Nat) : AuthResult :=
  match authHeader with
  | none => .missingToken "No token provided".toList
  | some h =>
    if !startsWithBearer h then .missingToken "No token provided".toList
    else
      match decode (h.drop 7) with
      | .malformed => .invalidToken "Invalid token".toList
      | .signed payload s =>
        if s ≠ secret then .invalidToken "Invalid token".toList
        else if now > payload.exp then .tokenExpired "Token expired".toList
        else .authed { email := payload.email, userType := payload.userType }

/-! ## Payments route (`routes/payments.js`) -/

/-- A stored transaction record. -/
structure Txn where
  transactionId : Str
  amount : JsNum
  recipientName : Str
  recipientAccount : Str
  swiftCode : Str
  initiatedBy : Str
  userType : Str
  status : Str
  timestamp : Nat
deriving DecidableEq

/-- The transaction store: the in-memory `transactions` map,
insertion-ordered. -/
abbrev TxnStore := List (Str × Txn)

/-- The exits of the `/process` route, in source order: the four 400
validation failures with their messages, and the 200 success carrying
the stored record. -/
inductive PayResult where
  | invalidAmount (message : Str)
  | invalidRecipientName (message : Str)
  | invalidAccount (message : Str)
  | invalidSwiftCode (message : Str)
  | paymentSuccess (txn : Txn)
deriving DecidableEq

/-- The `/process` route body.  `newId` stands for the generated
``TXN${Date.now()}${random}`` identifier (time- and randomness-derived,
so supplied as an oracle), `now` for the `Date` timestamp.  Control
flow as in the source: sanitize the three string fields (uppercasing
the SWIFT code first), validate amount, recipient name, account and
SWIFT code in order, then store the record keyed by its id. -/
def processPayment (user : ReqUser) (amount0 recipientName0 recipientAccount0 swiftCode0 : Str)
    (newId : Str) (now : Nat) (store : TxnStore) : PayResult × TxnStore :=
  let recipientName := sanitizeInput recipientName0
  let recipientAccount := sanitizeInput recipientAccount0
  let swiftCode := sanitizeInput (jsToUpper swiftCode0)
  match parseFloat amount0 with
  | none => (.invalidAmount "Invalid amount".toList, store)
  | some parsedAmount =>
    if !parsedAmount.isPositive then
      (.invalidAmount "Invalid amount".toList, store)
    else if recipientName.length < 2 then
      (.invalidRecipientName "Invalid recipient name".toList, store)
    else if recipientAccount.length < 5 then
      (.invalidAccount "Invalid recipient account number".toList, store)
    else if !validateSwiftCode swiftCode then
      (.invalidSwiftCode "Invalid SWIFT/BIC code format".toList, store)
    else
      let txn : Txn :=
        { transactionId := newId
          amount := parsedAmount
          recipientName := recipientName
          recipientAccount := recipientAccount
          swiftCode := swiftCode
          initiatedBy := user.email
          userType := user.userType
          status := "completed".toList
          timestamp := now }
      (.paymentSuccess txn, mapSet newId txn store)

/-- The `/history` route body:
`Array.from(transactions.values()).filter(t => t.initiatedBy === req.user.email).sort((a,b) => b.timestamp - a.timestamp)`.
`Array.prototype.sort` is stable and this comparator orders by
timestamp descending, so the result is the stable descending-by-
timestamp sort of the filtered values. -/
def history (user : ReqUser) (store : TxnStore) : List Txn :=
  ((store.map Prod.snd).filter (fun t => t.initiatedBy == user.email)).mergeSort
    (fun a b => b.timestamp ≤ a.timestamp)

/-- The exits of the `/:transactionId` route, in source order: 404
`Transaction not found`, 403 `Unauthorized access`, or the record. -/
inductive GetResult where
  | notFound (message : Str)
  | forbidden (message : Str)
  | found (txn : Txn)
deriving DecidableEq

/-- The `/:transactionId` route body: look the id up, 404 if absent,
403 if the caller is not the owner, otherwise return the record. -/
def getById (user : ReqUser) (store : TxnStore) (transactionId : Str) : GetResult :=
  match List.lookup transactionId store with
  | none => .notFound "Transaction not found".toList
  | some txn =>
    if txn.initiatedBy ≠ user.email then .forbidden "Unauthorized access".toList
    else .found txn

/-! ## The ledger as a state machine (for the store invariants) -/

/-- One protected ledger operation. -/
inductive Op where
  | record (user : ReqUser) (amount recipientName recipientAccount swiftCode : Str)
      (newId : Str) (now : Nat)
  | historyOp (user : ReqUser)
  | getByIdOp (user : ReqUser) (transactionId : Str)

/-- The effect of one operation on the transaction store: `/process`
commits through `processPayment`; `/history` and `/:transactionId`
only read. -/
def stepStore (store : TxnStore) : Op → TxnStore
  | .record u a rn racc sw id now => (processPayment u a rn racc sw id now store).2
  | .historyOp _ => store
  | .getByIdOp _ _ => store

/-- Run a sequence of operations against the store. -/
def runOps (store : TxnStore) : List Op → TxnStore
  | [] => store
  | op :: ops => runOps (stepStore store op) ops

/-- Every `record` operation in the trace uses an identifier that is
not yet a key of the store it runs against (what the
``TXN${Date.now()}${random}`` generator is designed to guarantee). -/
def FreshIds (store : TxnStore) : List Op → Prop
  | [] => True
  | op :: ops =>
    (match op with
     | .record _ _ _ _ _ id _ => List.lookup id store = none
     | _ => True) ∧ FreshIds (stepStore store op) ops

/-- The keying invariant of the transaction store: every entry is
keyed by its record's own `transactionId`. -/
def KeyedById (store : TxnStore) : Prop :=
  ∀ kv ∈ store, kv.1 = kv.2.transactionId

/-! ## Concrete fixtures used by witnesses and counterexamples -/

/-- A concrete stand-in for `bcrypt.compare` used on concrete inputs:
the plaintext verifies exactly against the digest equal to it. -/
def cmpEq : Str → Str → Bool := fun p h => p == h

/-- A concrete principal (the spec's scenario account). -/
def alice : User :=
  { email := "alice@example.com".toList
    password := "HASH".toList
    userType := "customer".toList
    createdAt := 0 }

/-- A user map holding only `alice`. -/
def demoUsers : List (Str × User) := [("alice@example.com".toList, alice)]

/-- The authenticated identity the middleware would attach for
`alice`. -/
def aliceReq : ReqUser :=
  { email := "alice@example.com".toList, userType := "customer".toList }

/-- A second authenticated identity, not the owner of `alice`'s
records. -/
def mallory : ReqUser :=
  { email := "mallory@example.com".toList, userType := "customer".toList }

/-- A concrete stored transaction, owned by `alice`. -/
def tx0 : Txn :=
  { transactionId := "TXN0".toList
    amount := .finite 10
    recipientName := "Bob".toList
    recipientAccount := "00012345".toList
    swiftCode := "ABCDUS33".toList
    initiatedBy := "alice@example.com".toList
    userType := "customer".toList
    status := "completed".toList
    timestamp := 1 }

/-- A store holding only `tx0`. -/
def demoStore : TxnStore := [("TXN0".toList, tx0)]

/-! ## C1 — when the role-naming message is returned -/

/-- C1 (amended): the login route returns the `RoleMismatch` outcome
(the message naming the principal's stored role) exactly when the
sanitized email passes validation, a principal exists for it, and the
claimed role differs from the stored role — independently of whether
the password verifies, because the user-type check precedes password
verification in the route. -/
theorem login_roleMismatch_iff
    (compare : Str → Str → Bool) (users : List (Str × User)) (secret : Str) (exp : Nat)
    (e p r msg : Str) :
    login compare users secret exp e p r = .roleMismatch msg ↔
    (validateEmail (sanitizeInput e) = true ∧
     ∃ u, List.lookup (sanitizeInput e) users = some u ∧
       u.userType ≠ sanitizeInput r ∧ msg = roleMismatchMessage u.userType) := by
  unfold login
  cases hv : validateEmail (sanitizeInput e)
  · simp [hv]
  · simp only [hv, Bool.not_true, Bool.false_eq_true, if_false, true_and]
    cases hl : List.lookup (sanitizeInput e) users with
    | none => simp
    | some u =>
      by_cases hr : u.userType = sanitizeInput r
      · simp only [hr, ne_eq, not_true_eq_false, if_false, Option.some.injEq]
        cases hc : compare p u.password <;>
          simp_all [eq_comm (a := u)]
      · simp only [ne_eq, hr, not_false_eq_true, if_true, Option.some.injEq]
        constructor
        · intro h
          exact ⟨u, rfl, hr, (LoginResult.roleMismatch.injEq _ _).mp h.symm⟩
        · rintro ⟨u', hu', hne, hmsg⟩
          cases hu'
          simp [hmsg]

/-- C1 witness: instantiating `login_roleMismatch_iff` at the spec's
scenario — `alice` is a `customer`, the claimed role is `employee` —
yields the role-naming message even though the supplied password does
not verify. -/
theorem login_roleMismatch_iff_witness :
    login cmpEq demoUsers "s".toList 99 "alice@example.com".toList "wrong".toList
      "employee".toList
      = .roleMismatch ("This account is registered for customer portal".toList) :=
  (login_roleMismatch_iff cmpEq demoUsers "s".toList 99 _ _ _ _).mpr
    ⟨by decide, alice, by decide, by decide, by decide⟩

/-- C1 counterexample: the claim as stated is false on the code — a
request with the existing email `alice@example.com`, a wrong password
(`compare` rejects it against the stored digest), and the wrong claimed
role `employee` still receives the message naming the stored role,
because the route checks the user type before verifying the
password. -/
theorem login_roleMismatch_despite_wrong_password :
    login cmpEq demoUsers "s".toList 99 "alice@example.com".toList "wrong".toList
      "employee".toList
      = .roleMismatch ("This account is registered for customer portal".toList)
    ∧ cmpEq "wrong".toList alice.password = false := by
  constructor
  · decide
  · decide

/-! ## C2 — `getById`: NotFound, Forbidden, owner access -/

/-- C2: for every authenticated caller and transaction id, the single-
transaction route fails with `NotFound` exactly when no stored record
has that id, fails with `Forbidden` exactly when the record exists but
its `initiatedBy` differs from the caller's email (existence decided
first), and returns the full stored record exactly when the caller is
the owner. -/
theorem getById_ownership (user : ReqUser) (store : TxnStore) (id : Str) :
    (getById user store id = .notFound "Transaction not found".toList ↔
      List.lookup id store = none) ∧
    (getById user store id = .forbidden "Unauthorized access".toList ↔
      ∃ t, List.lookup id store = some t ∧ t.initiatedBy ≠ user.email) ∧
    (∀ t, getById user store id = .found t ↔
      (List.lookup id store = some t ∧ t.initiatedBy = user.email)) := by
  unfold getById
  cases hl : List.lookup id store with
  | none => simp
  | some t =>
    by_cases ho : t.initiatedBy = user.email <;>
      simp_all [eq_comm (a := t)]

/-- C2 witness: `getById_ownership` applied to a concrete store — the
owner retrieves `tx0`, a different principal gets `Forbidden`, an
unknown id gets `NotFound`. -/
theorem getById_ownership_witness :
    getById aliceReq demoStore "TXN0".toList = .found tx0
    ∧ getById mallory demoStore "TXN0".toList
        = .forbidden "Unauthorized access".toList
    ∧ getById aliceReq demoStore "TXNX".toList
        = .notFound "Transaction not found".toList :=
  ⟨((getById_ownership aliceReq demoStore _).2.2 tx0).mpr ⟨by decide, by decide⟩,
   (getById_ownership mallory demoStore _).2.1.mpr ⟨tx0, by decide, by decide⟩,
   (getById_ownership aliceReq demoStore _).1.mpr (by decide)⟩

/-! ## C3 — no user-enumeration signal -/

/-- C3: a login attempt whose (validated) email maps to no principal
and a login attempt with an existing email, matching claimed role, and
a password that fails verification produce the same outcome with the
identical message text `Invalid credentials`; the response does not
reveal whether the email exists. -/
theorem login_no_enumeration
    (compare : Str → Str → Bool) (users : List (Str × User)) (secret : Str) (exp : Nat)
    (e1 p1 r1 e2 p2 r2 : Str) (u : User)
    (h1v : validateEmail (sanitizeInput e1) = true)
    (h1 : List.lookup (sanitizeInput e1) users = none)
    (h2v : validateEmail (sanitizeInput e2) = true)
    (h2 : List.lookup (sanitizeInput e2) users = some u)
    (hrole : u.userType = sanitizeInput r2)
    (hpw : compare p2 u.password = false) :
    login compare users secret exp e1 p1 r1
      = .invalidCredentials "Invalid credentials".toList
    ∧ login compare users secret exp e2 p2 r2
      = .invalidCredentials "Invalid credentials".toList := by
  unfold login
  constructor
  · simp [h1v, h1]
  · simp [h2v, h2, hrole, hpw]

/-- C3 witness: `login_no_enumeration` at concrete requests — an
unknown address `bob@example.com` and `alice@example.com` with the
right role but a rejected password yield identical
`Invalid credentials` responses. -/
theorem login_no_enumeration_witness :
    login cmpEq demoUsers "s".toList 99 "bob@example.com".toList "x".toList
      "customer".toList
      = .invalidCredentials "Invalid credentials".toList
    ∧ login cmpEq demoUsers "s".toList 99 "alice@example.com".toList "nope".toList
      "customer".toList
      = .invalidCredentials "Invalid credentials".toList :=
  login_no_enumeration cmpEq demoUsers "s".toList 99 _ _ _ _ _ _ alice
    (by decide) (by decide) (by decide) (by decide) (by decide) (by decide)


/-! ## C4 — amount validation -/

/-- The record the `/process` route stores for the input amount
`Infinity` (all other fields valid). -/
def txnInf : Txn :=
  { transactionId := "TXN1".toList
    amount := .posInf
    recipientName := "Bob Jones".toList
    recipientAccount := "00012345".toList
    swiftCode := "ABCDUS33".toList
    initiatedBy := "alice@example.com".toList
    userType := "customer".toList
    status := "completed".toList
    timestamp := 5 }

/-- C4 counterexample: the claim as stated is false on the code — the
route checks only `isNaN(parsed) || parsed <= 0`, never finiteness, so
the amount string `Infinity` (which `parseFloat` reads as positive
infinity) is accepted and a record with a non-finite amount is
stored. -/
theorem payment_accepts_infinite_amount :
    (processPayment aliceReq "Infinity".toList "Bob Jones".toList "00012345".toList
      "ABCDUS33".toList "TXN1".toList 5 [])
      = (.paymentSuccess txnInf, [("TXN1".toList, txnInf)])
    ∧ txnInf.amount = JsNum.posInf := by
  constructor
  · decide
  · rfl

/-- C4 (amended): the amount is accepted exactly when it parses
(`parseFloat` is not `NaN`) to a value strictly greater than zero;
finiteness is not checked, so `Infinity` passes.  Every non-numeric or
non-positive amount fails with `InvalidAmount`, and any `InvalidAmount`
failure leaves the store unchanged (no record is stored). -/
theorem payment_amount_validation
    (user : ReqUser) (a rn racc sw id : Str) (now : Nat) (store : TxnStore) :
    ((processPayment user a rn racc sw id now store).1
        = .invalidAmount "Invalid amount".toList ↔
      ¬ ∃ v, parseFloat a = some v ∧ v.isPositive = true) ∧
    (∀ m, (processPayment user a rn racc sw id now store).1 = .invalidAmount m →
      (processPayment user a rn racc sw id now store).2 = store) := by
  unfold processPayment
  cases hp : parseFloat a with
  | none => simp
  | some v =>
    cases hv : v.isPositive
    · simp [hv]
    · simp only [hv, Bool.not_true, Bool.false_eq_true, if_false]
      split_ifs <;> simp [hv]

/-- C4 witness: `payment_amount_validation` at the spec scenario
`record(amount="-5", ...)` — the request fails with `InvalidAmount`. -/
theorem payment_amount_validation_witness :
    (processPayment aliceReq "-5".toList "Bob Jones".toList "00012345".toList
      "ABCDUS33".toList "TXN1".toList 5 []).1
      = .invalidAmount "Invalid amount".toList :=
  (payment_amount_validation aliceReq _ _ _ _ _ 5 []).1.mpr
    (by
      rintro ⟨v, hv, hpos⟩
      rw [show parseFloat "-5".toList = some (JsNum.finite (-5)) by decide] at hv
      cases hv
      exact absurd hpos (by decide))


/-! ## C5 — sanitization on syntactically valid emails -/

/-- `splitOnChar` always yields at least one part. -/
theorem splitOnChar_ne_nil (sep : Char) (s : Str) : splitOnChar sep s ≠ [] := by
  cases s with
  | nil => simp [splitOnChar]
  | cons c rest =>
    simp only [splitOnChar]
    split
    · simp
    · split <;> simp

/-- Prepending a character to the first part commutes with `joinSep`. -/
theorem joinSep_cons_cons (sep c : Char) (q : Str) (t : List Str) :
    joinSep sep ((c :: q) :: t) = c :: joinSep sep (q :: t) := by
  cases t <;> rfl

/-- `joinSep` is a left inverse of `splitOnChar`. -/
theorem joinSep_splitOnChar (sep : Char) (s : Str) :
    joinSep sep (splitOnChar sep s) = s := by
  induction s with
  | nil => rfl
  | cons c rest ih =>
    simp only [splitOnChar]
    by_cases h : c = sep
    · subst h
      simp only [beq_self_eq_true, if_true]
      cases hparts : splitOnChar c rest with
      | nil => exact absurd hparts (splitOnChar_ne_nil c rest)
      | cons q t =>
        rw [hparts] at ih
        show joinSep c ([] :: q :: t) = c :: rest
        show [] ++ c :: joinSep c (q :: t) = c :: rest
        rw [List.nil_append, ih]
    · simp only [beq_eq_false_iff_ne.mpr h, Bool.false_eq_true, if_false]
      cases hparts : splitOnChar sep rest with
      | nil => exact absurd hparts (splitOnChar_ne_nil sep rest)
      | cons q t =>
        rw [hparts] at ih
        rw [joinSep_cons_cons, ih]

/-- Every character of a `joinSep` is the separator or comes from one
of the parts. -/
theorem mem_joinSep (sep : Char) {c : Char} : ∀ {ps : List Str},
    c ∈ joinSep sep ps → c = sep ∨ ∃ p ∈ ps, c ∈ p
  | [], h => by simp [joinSep] at h
  | [p], h => Or.inr ⟨p, by simp, by simpa [joinSep] using h⟩
  | p :: q :: t, h => by
    have hsplit : joinSep sep (p :: q :: t) = p ++ sep :: joinSep sep (q :: t) := rfl
    rw [hsplit] at h
    rcases List.mem_append.mp h with hp | hrest
    · exact Or.inr ⟨p, by simp, hp⟩
    · rcases List.mem_cons.mp hrest with hc | hrest2
      · exact Or.inl hc
      · rcases mem_joinSep sep hrest2 with hc | ⟨p2, hp2, hcp2⟩
        · exact Or.inl hc
        · exact Or.inr ⟨p2, by simp [hp2], hcp2⟩

/-- Every character of a part occurs in the `joinSep` of the parts. -/
theorem mem_joinSep_of_mem {sep c : Char} : ∀ {ps : List Str} {p : Str},
    p ∈ ps → c ∈ p → c ∈ joinSep sep ps
  | [], _, hp, _ => absurd hp (List.not_mem_nil _)
  | [q], p, hp, hc => by
    rcases List.mem_singleton.mp hp with rfl
    simpa [joinSep] using hc
  | q :: q2 :: t, p, hp, hc => by
    have hsplit : joinSep sep (q :: q2 :: t) = q ++ sep :: joinSep sep (q2 :: t) := rfl
    rw [hsplit]
    rcases List.mem_cons.mp hp with rfl | hp2
    · exact List.mem_append.mpr (Or.inl hc)
    · exact List.mem_append.mpr
        (Or.inr (List.mem_cons.mpr (Or.inr (mem_joinSep_of_mem hp2 hc))))

/-- Characters of a split part occur in the original string. -/
theorem mem_of_mem_splitOnChar {sep c : Char} {s p : Str}
    (hp : p ∈ splitOnChar sep s) (hc : c ∈ p) : c ∈ s := by
  rw [← joinSep_splitOnChar sep s]
  exact mem_joinSep_of_mem hp hc

/-- Every character of a string is the separator or sits in one of its
split parts. -/
theorem splitOnChar_cases (sep : Char) {c : Char} {s : Str} (hc : c ∈ s) :
    c = sep ∨ ∃ p ∈ splitOnChar sep s, c ∈ p := by
  rw [← joinSep_splitOnChar sep s] at hc
  exact mem_joinSep sep hc

/-- The ten code points recognised by `jsIsWhitespace`. -/
def wsChars : List Char :=
  [' ', '\t', '\n', '\r', '\x0b', '\x0c',
   Char.ofNat 0xA0, Char.ofNat 0xFEFF, Char.ofNat 0x2028, Char.ofNat 0x2029]

/-- Whitespace characters are among the ten code points. -/
theorem mem_wsChars_of_ws {c : Char} (hw : jsIsWhitespace c = true) :
    c ∈ wsChars := by
  simp only [jsIsWhitespace, Bool.or_eq_true, beq_iff_eq] at hw
  simp only [wsChars, List.mem_cons, List.not_mem_nil, or_false] at *
  tauto

/-- Characters of the unquoted local-part class are not whitespace. -/
theorem not_ws_of_emailUserChar {c : Char} (h : emailUserChar c = true) :
    jsIsWhitespace c = false := by
  cases hw : jsIsWhitespace c
  · rfl
  · exfalso
    have hmem := mem_wsChars_of_ws hw
    fin_cases hmem <;> exact absurd h (by decide)

/-- Characters of the FQDN label class are not whitespace. -/
theorem not_ws_of_fqdnLabelChar {c : Char} (h : fqdnLabelChar c = true) :
    jsIsWhitespace c = false := by
  cases hw : jsIsWhitespace c
  · rfl
  · exfalso
    have hmem := mem_wsChars_of_ws hw
    fin_cases hmem <;> exact absurd h (by decide)

/-- `dropWhile` is the identity on a list none of whose elements
satisfy the predicate. -/
theorem dropWhile_eq_self_of_not {p : Char → Bool} {s : Str}
    (h : ∀ c ∈ s, p c = false) : s.dropWhile p = s := by
  cases s with
  | nil => rfl
  | cons c rest => simp [List.dropWhile_cons, h c (List.mem_cons_self c rest)]

/-- `jsTrim` is the identity on whitespace-free strings. -/
theorem jsTrim_eq_self {s : Str} (h : ∀ c ∈ s, jsIsWhitespace c = false) :
    jsTrim s = s := by
  unfold jsTrim
  rw [dropWhile_eq_self_of_not h,
      dropWhile_eq_self_of_not (fun c hc => h c (List.mem_reverse.mp hc)),
      List.reverse_reverse]

/-- `escape` is the identity on strings whose characters all map to
themselves. -/
theorem escape_eq_self : ∀ {s : Str}, (∀ c ∈ s, escapeChar c = [c]) → escape s = s
  | [], _ => rfl
  | c :: rest, h => by
    have ih := escape_eq_self (s := rest) (fun x hx => h x (List.mem_cons_of_mem c hx))
    show (c :: rest).flatMap escapeChar = c :: rest
    rw [List.flatMap_cons, h c (List.mem_cons_self c rest)]
    show c :: escape rest = c :: rest
    rw [ih]

/-- A string accepted by `isEmail` that does not contain `"` contains
no whitespace: unquoted local parts draw from the atext-like class,
domains from the FQDN label class, and the separators are `@` and
`.`. -/
theorem isEmail_chars_not_ws {s : Str} (hem : isEmail s = true)
    (hq : '"' ∉ s) : ∀ c ∈ s, jsIsWhitespace c = false := by
  have hconj := hem
  unfold isEmail at hconj
  simp only [Bool.and_eq_true, decide_eq_true_eq] at hconj
  obtain ⟨⟨⟨⟨hlen, hulen⟩, hdlen⟩, hfq⟩, hlocal⟩ := hconj
  intro c hc
  have hparts_ne : splitOnChar '@' s ≠ [] := splitOnChar_ne_nil _ _
  rcases splitOnChar_cases '@' hc with rfl | ⟨p, hp, hcp⟩
  · decide
  · -- p is either before the last @ (local side) or the domain
    have hsplit := List.dropLast_append_getLast hparts_ne
    have hdomain : emailDomain s = (splitOnChar '@' s).getLast hparts_ne := by
      unfold emailDomain
      rw [List.getLast?_eq_getLast _ hparts_ne]
      rfl
    rw [← hsplit] at hp
    rcases List.mem_append.mp hp with hp | hp
    · -- local side: c is a character of emailUser s
      have hcu : c ∈ emailUser s := mem_joinSep_of_mem hp hcp
      -- the quoted branch is impossible without a double quote in s
      have hnq : ((emailUser s).head? == some '"') = false := by
        cases hh : (emailUser s).head? == some '"'
        · rfl
        · exfalso
          apply hq
          have hqu : '"' ∈ emailUser s := by
            cases hu : emailUser s with
            | nil => rw [hu] at hh; exact absurd hh (by decide)
            | cons x xs =>
              rw [hu] at hh
              have hx : x = '"' := by
                have := (beq_iff_eq (a := (x :: xs : Str).head?) (b := some '"')).mp hh
                simpa using this
              subst hx
              exact List.mem_cons_self _ _
          rcases mem_joinSep '@' hqu with h2 | ⟨p2, hp2, hcp2⟩
          · exact absurd h2 (by decide)
          · exact mem_of_mem_splitOnChar ((List.dropLast_sublist _).subset hp2) hcp2
      unfold localPartOk at hlocal
      rw [hnq] at hlocal
      simp only [Bool.false_eq_true, if_false] at hlocal
      rcases splitOnChar_cases '.' hcu with rfl | ⟨q, hq2, hcq⟩
      · decide
      · have hqok := List.all_eq_true.mp hlocal q hq2
        simp only [Bool.and_eq_true, decide_eq_true_eq] at hqok
        exact not_ws_of_emailUserChar (List.all_eq_true.mp hqok.2 c hcq)
    · -- domain side
      rcases List.mem_singleton.mp hp with rfl
      have hcd : c ∈ emailDomain s := by rw [hdomain]; exact hcp
      unfold isFQDN at hfq
      simp only [Bool.and_eq_true, decide_eq_true_eq] at hfq
      obtain ⟨⟨⟨⟨hplen, htld⟩, hws⟩, hdig⟩, hall⟩ := hfq
      rcases splitOnChar_cases '.' hcd with rfl | ⟨q, hq2, hcq⟩
      · decide
      · have hqok := List.all_eq_true.mp hall q hq2
        unfold fqdnLabelOk at hqok
        simp only [Bool.and_eq_true, decide_eq_true_eq] at hqok
        exact not_ws_of_fqdnLabelChar (List.all_eq_true.mp hqok.1.1.1.2 c hcq)

/-- C5 (amended): sanitization is the identity on every syntactically
valid email address none of whose characters is rewritten by the
markup escaper (`&`, `"`, `'`, `<`, `>`, `/`, `\\`, backtick); valid
emails containing one of those characters — which the email syntax
does allow in local parts — are altered by sanitization. -/
theorem sanitizeInput_id_on_clean_email {s : Str}
    (hem : isEmail s = true) (hesc : ∀ c ∈ s, escapeChar c = [c]) :
    sanitizeInput s = s := by
  have hq : '"' ∉ s := by
    intro hmem
    exact absurd (hesc _ hmem) (by decide)
  have hws := isEmail_chars_not_ws hem hq
  unfold sanitizeInput
  rw [jsTrim_eq_self hws, escape_eq_self hesc]

/-- C5 witness: `sanitizeInput_id_on_clean_email` at the concrete
address `alice@example.com`. -/
theorem sanitizeInput_id_on_clean_email_witness :
    sanitizeInput "alice@example.com".toList = "alice@example.com".toList :=
  sanitizeInput_id_on_clean_email (by decide) (by decide)

/-- C5 counterexample: the claim as stated is false on the code — the
address `a&b@example.com` is syntactically valid (`&` is a legal
local-part character), yet sanitization rewrites it to
`a&amp;b@example.com`, so it would be looked up under a different
key. -/
theorem sanitizeInput_alters_valid_email :
    isEmail "a&b@example.com".toList = true
    ∧ sanitizeInput "a&b@example.com".toList ≠ "a&b@example.com".toList
    ∧ sanitizeInput "a&b@example.com".toList = "a&amp;b@example.com".toList := by
  refine ⟨by decide, by decide, by decide⟩


/-! ## C6 — token verification outcomes -/

/-- C6: `verifyToken` fails with `MissingToken` exactly when the
authorization value is absent or lacks the `Bearer ` prefix; fails with
`TokenExpired` (a code distinct from `InvalidToken`) exactly when the
carried token is authentic for the verifier secret but past its
expiry; fails with `InvalidToken` exactly when the token is malformed
or signed under a different secret; and on success attaches exactly the
subject email and role carried by the token payload. -/
theorem verifyToken_cases (decode : Str → TokenData) (secret : Str)
    (header : Option Str) (now : Nat) :
    (verifyToken decode secret header now = .missingToken "No token provided".toList ↔
      header = none ∨ ∃ h, header = some h ∧ startsWithBearer h = false) ∧
    (verifyToken decode secret header now = .tokenExpired "Token expired".toList ↔
      ∃ h p, header = some h ∧ startsWithBearer h = true ∧
        decode (h.drop 7) = .signed p secret ∧ p.exp < now) ∧
    (verifyToken decode secret header now = .invalidToken "Invalid token".toList ↔
      ∃ h, header = some h ∧ startsWithBearer h = true ∧
        (decode (h.drop 7) = .malformed ∨
         ∃ p s2, decode (h.drop 7) = .signed p s2 ∧ s2 ≠ secret)) ∧
    (∀ u, verifyToken decode secret header now = .authed u ↔
      ∃ h p, header = some h ∧ startsWithBearer h = true ∧
        decode (h.drop 7) = .signed p secret ∧ now ≤ p.exp ∧
        u = { email := p.email, userType := p.userType }) := by
  cases header with
  | none =>
    refine ⟨?_, ?_, ?_, fun u => ?_⟩ <;> simp [verifyToken]
  | some h =>
    cases hb : startsWithBearer h with
    | false =>
      have hres : verifyToken decode secret (some h) now
          = .missingToken "No token provided".toList := by
        unfold verifyToken; simp [hb]
      refine ⟨?_, ?_, ?_, fun u => ?_⟩ <;> simp [hres, hb]
    | true =>
      cases hd : decode (h.drop 7) with
      | malformed =>
        have hres : verifyToken decode secret (some h) now
            = .invalidToken "Invalid token".toList := by
          unfold verifyToken; simp [hb, hd]
        refine ⟨?_, ?_, ?_, fun u => ?_⟩ <;> simp [hres, hb, hd]
      | signed p s2 =>
        by_cases hs : s2 = secret
        · subst s2
          by_cases he : p.exp < now
          · have hres : verifyToken decode secret (some h) now
                = .tokenExpired "Token expired".toList := by
              unfold verifyToken; simp [hb, hd, he]
            refine ⟨?_, ?_, ?_, fun u => ?_⟩
            · simp [hres, hb]
            · simp [hres, hb, hd, he]
            · simp [hres, hb, hd]
            · simp [hres, hb, hd, he]
          · have hres : verifyToken decode secret (some h) now
                = .authed { email := p.email, userType := p.userType } := by
              unfold verifyToken
              simp only [hb, Bool.not_true, Bool.false_eq_true, if_false, hd]
              rw [if_neg (by simp), if_neg he]
            refine ⟨?_, ?_, ?_, fun u => ?_⟩
            · simp [hres, hb]
            · simp [hres, hb, hd, he]
            · simp [hres, hb, hd]
            · rw [hres]
              constructor
              · intro hu
                have hpu : ({ email := p.email, userType := p.userType } : ReqUser) = u :=
                  (AuthResult.authed.injEq _ _).mp hu
                exact ⟨h, p, rfl, hb, hd, Nat.le_of_not_lt he, hpu.symm⟩
              · rintro ⟨h2, p2, hh2, hb2, hd2, hle, hu⟩
                cases hh2
                rw [hd] at hd2
                have hp2 : p = p2 := ((TokenData.signed.injEq _ _ _ _).mp hd2).1
                rw [hu, ← hp2]
        · have hres : verifyToken decode secret (some h) now
              = .invalidToken "Invalid token".toList := by
            unfold verifyToken; simp [hb, hd, hs]
          refine ⟨?_, ?_, ?_, fun u => ?_⟩
          · simp [hres, hb]
          · simp [hres, hb, hd, hs]
          · rw [hres]
            exact iff_of_true rfl ⟨h, rfl, hb, Or.inr ⟨p, s2, hd, hs⟩⟩
          · simp [hres, hb, hd, hs]

/-- A concrete token decoder for the witness: the carrier string `tok`
decodes to a payload for `alice` signed under the secret `s`,
everything else is malformed. -/
def demoDecode : Str → TokenData :=
  fun t =>
    if t = "tok".toList then
      .signed { email := "alice@example.com".toList,
                userType := "customer".toList, exp := 100 } "s".toList
    else .malformed

/-- C6 witness: `verifyToken_cases` at concrete inputs — a well-formed
`Bearer tok` header before expiry authenticates `alice`; a header
without the bearer prefix is `MissingToken`. -/
theorem verifyToken_cases_witness :
    verifyToken demoDecode "s".toList (some ("Bearer tok".toList)) 50
      = .authed { email := "alice@example.com".toList, userType := "customer".toList }
    ∧ verifyToken demoDecode "s".toList (some ("tok".toList)) 50
      = .missingToken "No token provided".toList :=
  ⟨((verifyToken_cases demoDecode "s".toList (some ("Bearer tok".toList)) 50).2.2.2 _).mpr
      ⟨"Bearer tok".toList,
       { email := "alice@example.com".toList, userType := "customer".toList, exp := 100 },
       rfl, by decide, by decide, by decide, rfl⟩,
   (verifyToken_cases demoDecode "s".toList (some ("tok".toList)) 50).1.mpr
      (Or.inr ⟨"tok".toList, rfl, by decide⟩)⟩

/-! ## C7 — per-owner history, newest first, stable -/

/-- The comparator of the `/history` sort, as a Boolean relation:
`(a, b) => b.timestamp - a.timestamp` orders by timestamp
descending. -/
def histLE (a b : Txn) : Bool := b.timestamp ≤ a.timestamp

/-- `histLE` is transitive. -/
theorem histLE_trans (a b c : Txn) :
    histLE a b = true → histLE b c = true → histLE a c = true := by
  unfold histLE
  simp only [decide_eq_true_eq]
  omega

/-- `histLE` is total. -/
theorem histLE_total (a b : Txn) : (histLE a b || histLE b a) = true := by
  unfold histLE
  simp only [Bool.or_eq_true, decide_eq_true_eq]
  omega

/-- C7: for every caller and store state, `/history` returns exactly
the caller-owned records (a permutation of the owner filter of the
stored values, and membership is ownership), ordered by timestamp
descending, with any two filtered records in nondecreasing comparator
order — in particular equal-timestamp records — kept in their
insertion order; and the operation leaves the store unchanged. -/
theorem history_spec (user : ReqUser) (store : TxnStore) :
    ((history user store).Pairwise (fun a b => b.timestamp ≤ a.timestamp)) ∧
    ((history user store).Perm
      ((store.map Prod.snd).filter (fun t => t.initiatedBy == user.email))) ∧
    (∀ t, t ∈ history user store ↔
      t ∈ store.map Prod.snd ∧ t.initiatedBy = user.email) ∧
    (∀ a b, [a, b].Sublist
        ((store.map Prod.snd).filter (fun t => t.initiatedBy == user.email)) →
      b.timestamp ≤ a.timestamp → [a, b].Sublist (history user store)) ∧
    stepStore store (.historyOp user) = store := by
  refine ⟨?_, ?_, ?_, ?_, rfl⟩
  · have hs := @List.sorted_mergeSort _ histLE histLE_trans histLE_total
      ((store.map Prod.snd).filter (fun t => t.initiatedBy == user.email))
    have : history user store = ((store.map Prod.snd).filter
        (fun t => t.initiatedBy == user.email)).mergeSort histLE := rfl
    rw [this]
    exact hs.imp (fun h => by simpa [histLE] using h)
  · exact List.mergeSort_perm _ _
  · intro t
    constructor
    · intro ht
      have := List.mem_mergeSort.mp ht
      have := List.mem_filter.mp this
      exact ⟨this.1, by simpa using this.2⟩
    · intro ⟨hmem, hown⟩
      exact List.mem_mergeSort.mpr (List.mem_filter.mpr ⟨hmem, by simpa using hown⟩)
  · intro a b hsub hts
    exact List.pair_sublist_mergeSort histLE_trans histLE_total
      (by simpa [histLE] using hts) hsub

/-- C7 witness: `history_spec` at a concrete two-record store — the
history of `alice` contains exactly her record. -/
theorem history_spec_witness :
    tx0 ∈ history aliceReq demoStore ∧ (history aliceReq demoStore).Pairwise
      (fun a b => b.timestamp ≤ a.timestamp) :=
  ⟨((history_spec aliceReq demoStore).2.2.1 tx0).mpr ⟨by decide, by decide⟩,
   (history_spec aliceReq demoStore).1⟩


/-! ## C8 — SWIFT code shape and normalization -/

/-- The record stored for the spec scenario
`record(amount="12.50", recipientName="Bo"… )` with lowercase
`abcdus33`. -/
def swiftTxn : Txn :=
  { transactionId := "TXN1".toList
    amount := .finite (Rat.divInt 25 2)
    recipientName := "Bob Jones".toList
    recipientAccount := "00012345".toList
    swiftCode := "ABCDUS33".toList
    initiatedBy := "alice@example.com".toList
    userType := "customer".toList
    status := "completed".toList
    timestamp := 5 }

/-- C8: `validateSwiftCode` accepts exactly the strings of the
SWIFT/BIC shape — 6 letters, 2 letters-or-digits, optionally exactly 3
letters-or-digits (total length 8 or 11) — and the `/process` route
uppercases the (sanitized) SWIFT code before validating, so the
lowercase input `abcdus33` is accepted and stored as `ABCDUS33`. -/
theorem swiftCode_shape (s : Str) :
    (validateSwiftCode s = true ↔ SwiftShape s) ∧
    (processPayment aliceReq "12.50".toList "Bob Jones".toList "00012345".toList
        "abcdus33".toList "TXN1".toList 5 []
      = (.paymentSuccess swiftTxn, [("TXN1".toList, swiftTxn)])
     ∧ swiftTxn.swiftCode = "ABCDUS33".toList) := by
  constructor
  · constructor
    · intro h
      unfold validateSwiftCode at h
      simp only [Bool.and_eq_true, Bool.or_eq_true, beq_iff_eq] at h
      obtain ⟨⟨hlen, h6⟩, hrest⟩ := h
      rcases hlen with hlen | hlen
      · refine ⟨s.take 6, s.drop 6, [], ?_, ?_, ?_, ?_, ?_, Or.inl rfl⟩
        · rw [List.append_nil, List.take_append_drop]
        · rw [List.length_take]; omega
        · exact List.all_eq_true.mp h6
        · rw [List.length_drop]; omega
        · exact List.all_eq_true.mp hrest
      · refine ⟨s.take 6, (s.drop 6).take 2, (s.drop 6).drop 2, ?_, ?_, ?_, ?_, ?_,
          Or.inr ⟨?_, ?_⟩⟩
        · rw [List.append_assoc, List.take_append_drop, List.take_append_drop]
        · rw [List.length_take]; omega
        · exact List.all_eq_true.mp h6
        · rw [List.length_take, List.length_drop]; omega
        · intro x hx
          exact List.all_eq_true.mp hrest x (List.mem_of_mem_take hx)
        · rw [List.length_drop, List.length_drop]; omega
        · intro x hx
          exact List.all_eq_true.mp hrest x (List.mem_of_mem_drop hx)
    · rintro ⟨a, b, c, rfl, ha6, haU, hb2, hbA, hc⟩
      have htake : (a ++ b ++ c).take 6 = a := by
        rw [List.append_assoc, ← ha6, List.take_left]
      have hdrop : (a ++ b ++ c).drop 6 = b ++ c := by
        rw [List.append_assoc, ← ha6, List.drop_left]
      unfold validateSwiftCode
      simp only [Bool.and_eq_true, Bool.or_eq_true, beq_iff_eq, htake, hdrop]
      refine ⟨⟨?_, List.all_eq_true.mpr haU⟩, ?_⟩
      · rcases hc with rfl | ⟨hc3, _⟩
        · left; simp [List.length_append, ha6, hb2]
        · right; simp [List.length_append, ha6, hb2, hc3]
      · refine List.all_eq_true.mpr ?_
        intro x hx
        rcases List.mem_append.mp hx with hxb | hxc
        · exact hbA x hxb
        · rcases hc with rfl | ⟨_, hcA⟩
          · cases hxc
          · exact hcA x hxc
  · exact ⟨by decide, rfl⟩

/-- C8 witness: by `swiftCode_shape`, the stored normalized code
`ABCDUS33` itself has the SWIFT/BIC shape. -/
theorem swiftCode_shape_witness : SwiftShape ("ABCDUS33".toList) :=
  ((swiftCode_shape "ABCDUS33".toList).1).mp (by decide)

/-! ## C9 — length thresholds measured after escaping -/

/-- The record stored when `recipientAccount` is the single character
`"`, which the sanitizer expands to the six-character entity
`&quot;`. -/
def quoteTxn : Txn :=
  { transactionId := "TXN2".toList
    amount := .finite 10
    recipientName := "Bob".toList
    recipientAccount := "&quot;".toList
    swiftCode := "ABCDUS33".toList
    initiatedBy := "alice@example.com".toList
    userType := "customer".toList
    status := "completed".toList
    timestamp := 7 }

/-- The record stored when `recipientName` is the single character
`<`, which the sanitizer expands to the four-character entity
`&lt;`. -/
def ltTxn : Txn :=
  { transactionId := "TXN3".toList
    amount := .finite 10
    recipientName := "&lt;".toList
    recipientAccount := "00012345".toList
    swiftCode := "ABCDUS33".toList
    initiatedBy := "alice@example.com".toList
    userType := "customer".toList
    status := "completed".toList
    timestamp := 9 }

/-- C9: the `≥ 5` account and `≥ 2` name thresholds are measured on
the markup-escaped string: a `recipientAccount` of one raw character
`"` (escaped to the 6-character `&quot;`) and a `recipientName` of one
raw character `<` (escaped to the 4-character `&lt;`) both pass
validation and records are stored, even though the raw inputs are
shorter than the thresholds. -/
theorem payment_thresholds_after_escape :
    ((['"'] : Str).length = 1
      ∧ sanitizeInput ['"'] = "&quot;".toList ∧ (sanitizeInput ['"']).length = 6
      ∧ processPayment aliceReq "10".toList "Bob".toList ['"'] "ABCDUS33".toList
          "TXN2".toList 7 []
        = (.paymentSuccess quoteTxn, [("TXN2".toList, quoteTxn)]))
    ∧ ((['<'] : Str).length = 1
      ∧ sanitizeInput ['<'] = "&lt;".toList
      ∧ processPayment aliceReq "10".toList ['<'] "00012345".toList "ABCDUS33".toList
          "TXN3".toList 9 []
        = (.paymentSuccess ltTxn, [("TXN3".toList, ltTxn)])) := by
  exact ⟨⟨rfl, by decide, by decide, by decide⟩, ⟨rfl, by decide, by decide⟩⟩


/-! ## C10 — the store is insert-only and keyed by id -/

/-- Looking up after `Map.set`: the new key maps to the new value,
every other key is untouched. -/
theorem lookup_mapSet {α : Type} (k id : Str) (t : α) :
    ∀ s : List (Str × α),
      List.lookup k (mapSet id t s) = if k = id then some t else List.lookup k s := by
  intro s
  induction s with
  | nil =>
    by_cases hk : k = id
    · subst hk; simp [mapSet, List.lookup]
    · simp [mapSet, List.lookup, beq_eq_false_iff_ne.mpr hk, hk]
  | cons kv rest ih =>
    obtain ⟨k2, v2⟩ := kv
    unfold mapSet
    by_cases h2 : id = k2
    · subst h2
      by_cases hk : k = id
      · subst hk; simp [List.lookup]
      · simp [List.lookup, beq_eq_false_iff_ne.mpr hk, hk]
    · simp only [if_neg h2]
      by_cases hk : k = k2
      · subst hk
        have hki : k ≠ id := fun h => h2 h.symm
        simp [List.lookup, hki]
      · simp [List.lookup, beq_eq_false_iff_ne.mpr hk, ih]

/-- The `/process` route either rejects the request and leaves the
store unchanged, or commits exactly one new record — keyed by the
generated id, with status `completed` and `initiatedBy` the caller —
via `Map.set`. -/
theorem processPayment_store_cases (u : ReqUser) (a rn racc sw id : Str) (now : Nat)
    (store : TxnStore) :
    ((∀ t, (processPayment u a rn racc sw id now store).1 ≠ .paymentSuccess t) ∧
      (processPayment u a rn racc sw id now store).2 = store) ∨
    (∃ t, (processPayment u a rn racc sw id now store).1 = .paymentSuccess t ∧
      t.transactionId = id ∧ t.status = "completed".toList ∧ t.initiatedBy = u.email ∧
      (processPayment u a rn racc sw id now store).2 = mapSet id t store) := by
  unfold processPayment
  cases parseFloat a with
  | none => exact Or.inl ⟨by simp, rfl⟩
  | some v =>
    cases hv : v.isPositive
    · refine Or.inl ⟨?_, ?_⟩ <;> simp [hv]
    · simp only [hv, Bool.not_true, Bool.false_eq_true, if_false]
      split_ifs
      · exact Or.inl ⟨by simp, rfl⟩
      · exact Or.inl ⟨by simp, rfl⟩
      · exact Or.inl ⟨by simp, rfl⟩
      · exact Or.inr ⟨_, rfl, rfl, rfl, rfl, rfl⟩

/-- One step preserves every record present before it, provided a
`record` step uses a fresh id. -/
theorem stepStore_preserves (s : TxnStore) (op : Op) (k : Str) (r : Txn)
    (hfresh : match op with
      | .record _ _ _ _ _ id _ => List.lookup id s = none
      | _ => True)
    (hk : List.lookup k s = some r) : List.lookup k (stepStore s op) = some r := by
  cases op with
  | historyOp u => exact hk
  | getByIdOp u i => exact hk
  | record u a rn racc sw id now =>
    have hf : List.lookup id s = none := hfresh
    simp only [stepStore]
    rcases processPayment_store_cases u a rn racc sw id now s with
      ⟨_, hsnd⟩ | ⟨t, _, _, _, _, hsnd⟩
    · rw [hsnd]; exact hk
    · rw [hsnd, lookup_mapSet]
      have hkid : k ≠ id := by
        intro h
        subst h
        rw [hf] at hk
        exact Option.noConfusion hk
      simp [hkid, hk]

/-- `Map.set` with a self-keyed record preserves the keying
invariant. -/
theorem keyedById_mapSet {s : TxnStore} {id : Str} {t : Txn}
    (hinv : KeyedById s) (ht : t.transactionId = id) : KeyedById (mapSet id t s) := by
  induction s with
  | nil =>
    intro kv hkv
    rcases List.mem_singleton.mp hkv with rfl
    exact ht.symm
  | cons kv2 rest ih =>
    obtain ⟨k2, v2⟩ := kv2
    unfold mapSet
    by_cases h2 : id = k2
    · subst h2
      rw [if_pos rfl]
      intro kv hkv
      rcases List.mem_cons.mp hkv with rfl | hmem
      · exact ht.symm
      · exact hinv _ (List.mem_cons_of_mem _ hmem)
    · simp only [if_neg h2]
      intro kv hkv
      rcases List.mem_cons.mp hkv with rfl | hmem
      · exact hinv _ (List.mem_cons_self _ _)
      · exact ih (fun kv3 h3 => hinv kv3 (List.mem_cons_of_mem _ h3)) _ hmem

/-- One step preserves the keying invariant. -/
theorem stepStore_keyed (s : TxnStore) (op : Op) (hinv : KeyedById s) :
    KeyedById (stepStore s op) := by
  cases op with
  | historyOp _ => exact hinv
  | getByIdOp _ _ => exact hinv
  | record u a rn racc sw id now =>
    simp only [stepStore]
    rcases processPayment_store_cases u a rn racc sw id now s with
      ⟨_, hsnd⟩ | ⟨t, _, htid, _, _, hsnd⟩
    · rw [hsnd]; exact hinv
    · rw [hsnd]; exact keyedById_mapSet hinv htid

/-- Record preservation over a whole trace with fresh ids. -/
theorem runOps_preserves (k : Str) (r : Txn) :
    ∀ (ops : List Op) (s : TxnStore), FreshIds s ops →
      List.lookup k s = some r → List.lookup k (runOps s ops) = some r
  | [], _, _, hk => hk
  | op :: ops, s, hf, hk =>
    runOps_preserves k r ops (stepStore s op) hf.2
      (stepStore_preserves s op k r hf.1 hk)

/-- The keying invariant over a whole trace. -/
theorem runOps_keyed :
    ∀ (ops : List Op) (s : TxnStore), KeyedById s → KeyedById (runOps s ops)
  | [], _, h => h
  | op :: ops, s, h => runOps_keyed ops _ (stepStore_keyed s op h)

/-- C10: across every sequence of record/history/getById operations the
transaction store is insert-only and keyed by id — the keying invariant
is preserved; any record present at some point is still present,
unchanged in every field, after the rest of the trace (given that
generated ids are fresh, which the time-plus-randomness generator
provides); a successful `record` commits exactly the new self-keyed
entry with status `completed` and `initiatedBy` the caller's email; and
a rejected `record` (like `history` and `getById`, which never write)
leaves the store untouched. -/
theorem ledger_store_invariants (store : TxnStore) (ops : List Op) (k : Str) (r : Txn) :
    (KeyedById store → KeyedById (runOps store ops)) ∧
    (FreshIds store ops → List.lookup k store = some r →
      List.lookup k (runOps store ops) = some r) ∧
    (∀ u a rn racc sw id now t,
      (processPayment u a rn racc sw id now store).1 = .paymentSuccess t →
        t.transactionId = id ∧ t.status = "completed".toList ∧ t.initiatedBy = u.email ∧
        (processPayment u a rn racc sw id now store).2 = mapSet id t store) ∧
    (∀ u a rn racc sw id now,
      (∀ t, (processPayment u a rn racc sw id now store).1 ≠ .paymentSuccess t) →
        (processPayment u a rn racc sw id now store).2 = store) := by
  refine ⟨runOps_keyed ops store,
    fun hf hk => runOps_preserves k r ops store hf hk, ?_, ?_⟩
  · intro u a rn racc sw id now t hsucc
    rcases processPayment_store_cases u a rn racc sw id now store with
      ⟨hno, _⟩ | ⟨t2, h1, h2, h3, h4, h5⟩
    · exact absurd hsucc (hno t)
    · rw [hsucc] at h1
      have ht : t = t2 := (PayResult.paymentSuccess.injEq _ _).mp h1
      subst ht
      exact ⟨h2, h3, h4, h5⟩
  · intro u a rn racc sw id now hno
    rcases processPayment_store_cases u a rn racc sw id now store with
      ⟨_, hsnd⟩ | ⟨t2, h1, _, _, _, _⟩
    · exact hsnd
    · exact absurd h1 (hno t2)

/-- A concrete trace: a fresh record by `alice`, a history read, and a
lookup. -/
def demoOps : List Op :=
  [.record aliceReq "10".toList "Bob".toList "00012345".toList "ABCDUS33".toList
      "TXN9".toList 3,
   .historyOp aliceReq,
   .getByIdOp aliceReq "TXN0".toList]

/-- C10 witness: `ledger_store_invariants` on the concrete trace — the
pre-existing record `tx0` is still stored unchanged after the trace. -/
theorem ledger_store_invariants_witness :
    List.lookup "TXN0".toList (runOps demoStore demoOps) = some tx0 :=
  (ledger_store_invariants demoStore demoOps "TXN0".toList tx0).2.1
    ⟨by decide, trivial, trivial, trivial⟩ (by decide)

end Portal
